import Mathlib

set_option maxHeartbeats 1000000
set_option maxRecDepth 100000

/-! Shallow embedding of the stock-hunter engine in `src/main.py`
    (function `run_stable_hunter` and its helpers).  Prices and volumes
    are modelled as exact rationals; a pandas NaN cell is modelled as
    `none`.  The contents of the ticker-list file are modelled as a list
    of lines, the batch download as an association list from ticker to
    raw OHLCV rows, and the network call itself as an `Except`-valued
    parameter (the code's `try/except` around `yf.download`).  All
    definitions follow the Python source line by line; the only
    spec-level definitions (for the refinement claim about compounded
    capital) are `specGo`, `specTrades`, `specClosedCapital` and
    `specCapital`, which are marked as such. -/

/-- A raw downloaded OHLCV row; `none` models a NaN cell. -/
structure RawBar where
  openP : Option ℚ
  high : Option ℚ
  low : Option ℚ
  close : Option ℚ
  volume : Option ℚ
  deriving DecidableEq

/-- A fully populated OHLCV row (a row surviving `df.dropna()`). -/
structure Bar where
  openP : ℚ
  high : ℚ
  low : ℚ
  close : ℚ
  volume : ℚ
  deriving DecidableEq

instance {α β : Type} [DecidableEq α] [DecidableEq β] : DecidableEq (Except α β) :=
  fun x y =>
    match x, y with
    | Except.error a, Except.error b =>
      if h : a = b then Decidable.isTrue (by rw [h])
      else Decidable.isFalse (by intro hh; cases hh; exact h rfl)
    | Except.ok a, Except.ok b =>
      if h : a = b then Decidable.isTrue (by rw [h])
      else Decidable.isFalse (by intro hh; cases hh; exact h rfl)
    | Except.error a, Except.ok b => Decidable.isFalse (by intro hh; cases hh)
    | Except.ok a, Except.error b => Decidable.isFalse (by intro hh; cases hh)

/-- A row survives `dropna` iff every cell is present (main.py line 134). -/
def rowComplete (r : RawBar) : Option Bar :=
  match r.openP, r.high, r.low, r.close, r.volume with
  | some o, some h, some l, some c, some v => some ⟨o, h, l, c, v⟩
  | _, _, _, _, _ => none

/-- `df.dropna(inplace=True)` (main.py line 134). -/
def dropna (raw : List RawBar) : List Bar := raw.filterMap rowComplete

def rowAllNull (r : RawBar) : Bool :=
  r.openP.isNone && r.high.isNone && r.low.isNone && r.close.isNone && r.volume.isNone

/-- `df.isnull().all().all()` (main.py line 132). -/
def allNull (raw : List RawBar) : Bool := raw.all rowAllNull

/-! ### The weekly backtest pipeline (main.py lines 153-176) -/

/-- `df_strat['ma'] = df_strat['Close'].rolling(p).mean()` followed by
    `df_strat.dropna()` (main.py lines 158-159): the surviving rows are the
    rows with index `i ≥ p - 1`, paired with the mean of the `p` closes
    ending at `i`. -/
def rollingRows (p : ℕ) (closes : List ℚ) : List (ℚ × ℚ) :=
  (List.range closes.length).filterMap fun i =>
    if p ≤ i + 1 then
      some (closes.getD i 0, ((closes.drop (i + 1 - p)).take p).sum / (p : ℚ))
    else none

/-- `df_strat['above_ma'] = (df_strat['Close'] > df_strat['ma']).astype(int)`
    (main.py line 161), kept as a Bool next to the close. -/
def rowsOf (p : ℕ) (closes : List ℚ) : List (ℚ × Bool) :=
  (rollingRows p closes).map fun r => (r.1, decide (r.2 < r.1))

/-- `df_strat['signal_change'] = df_strat['above_ma'].diff()` (main.py
    line 162): `none` models the NaN on the first row. -/
def sigOf (pa : Option Bool) (a : Bool) : Option Int :=
  pa.map fun pb => (if a then 1 else 0) - (if pb then 1 else 0)

/-- One row of `df_strat` after all derived columns are added:
    `Close`, `above_ma`, `signal_change` and `entry_price_held`
    (`buy_price` forward-filled, main.py lines 163-164). -/
structure StratRow where
  close : ℚ
  above : Bool
  signal : Option Int
  entryHeld : Option ℚ
  deriving DecidableEq

/-- Row-wise computation of the derived columns: `pa` is the previous
    row's `above_ma` (`none` before the first row), `held` the running
    forward-fill of `buy_price`. -/
def buildRows (pa : Option Bool) (held : Option ℚ) : List (ℚ × Bool) → List StratRow
  | [] => []
  | (c, a) :: rest =>
    let sig := sigOf pa a
    let held' := if sig = some 1 then some c else held
    ⟨c, a, sig, held'⟩ :: buildRows (some a) held' rest

/-- The fully derived `df_strat` for window `p`. -/
def stratRows (p : ℕ) (closes : List ℚ) : List StratRow :=
  buildRows none none (rowsOf p closes)

def isSellRow (r : StratRow) : Bool := decide (r.signal = some (-1))

def isBuyRow (r : StratRow) : Bool := decide (r.signal = some 1)

/-- `trades = df_strat[df_strat['signal_change'] == -1]` (main.py line 165). -/
def tradeRows (p : ℕ) (closes : List ℚ) : List StratRow :=
  (stratRows p closes).filter isSellRow

/-- Per-trade net return `(exit - entry) / entry - 0.004`
    (main.py lines 168 and 174). -/
def tradeReturn (e x : ℚ) : ℚ := (x - e) / e - 0.004

/-- `trade_profits_pct` before the open-position append (main.py lines
    166-168): the empty list when there are no trades or every trade row
    has a null `entry_price_held`; otherwise one entry per trade row,
    `none` modelling the NaN produced by a null entry price. -/
def tradeProfits (p : ℕ) (closes : List ℚ) : List (Option ℚ) :=
  let ts := tradeRows p closes
  if ts = [] ∨ ts.all (fun r => r.entryHeld.isNone) then []
  else ts.map fun r => r.entryHeld.map fun e => tradeReturn e r.close

/-- The mark-to-market profit appended for a position still open on the
    last row (main.py lines 169-174): present when the last row is above
    the average, a buy row exists, and its close is nonzero. -/
def openProfit (p : ℕ) (closes : List ℚ) : Option ℚ :=
  match (stratRows p closes).getLast? with
  | none => none
  | some lastRow =>
    if lastRow.above then
      match ((stratRows p closes).filter isBuyRow).getLast? with
      | none => none
      | some buyRow =>
        if buyRow.close ≠ 0 then some (tradeReturn buyRow.close lastRow.close)
        else none
    else none

/-- The final `trade_profits_pct` list (after the line-174 append). -/
def allProfits (p : ℕ) (closes : List ℚ) : List (Option ℚ) :=
  tradeProfits p closes ++ (openProfit p closes).toList.map some

/-- `current_capital = 100.0 * np.prod([1 + prof for prof in trade_profits_pct])`
    (main.py line 175); `none` models a NaN capital (a NaN profit
    poisons `np.prod`). -/
def capital (p : ℕ) (closes : List ℚ) : Option ℚ :=
  if (allProfits p closes).all Option.isSome then
    some (100.0 * (((allProfits p closes).filterMap id).map fun x => 1 + x).prod)
  else none

/-- The `battle` list (main.py lines 155-176): one entry per candidate
    window whose `df_strat` is nonempty. -/
def battle (closes : List ℚ) : List (ℕ × Option ℚ) :=
  [10, 20, 60].filterMap fun p =>
    if stratRows p closes = [] then none else some (p, capital p closes)

/-- `sorted(battle, key=lambda x: x[1], reverse=True)[0]` (main.py line
    178) for lists with numeric (non-NaN) keys: Python's sort is stable,
    so the head of the descending sort is the earliest entry attaining
    the maximal capital.  When a `none` (NaN) key is involved the Python
    sort order is unspecified; this model then keeps the earlier entry,
    and every theorem about the selection assumes NaN-free capitals. -/
def selectBest (l : List (ℕ × Option ℚ)) : Option (ℕ × Option ℚ) :=
  match l with
  | [] => none
  | x :: xs =>
    some (xs.foldl (fun b y =>
      match b.2, y.2 with
      | some bc, some yc => if bc < yc then y else b
      | _, _ => b) x)

/-! ### Decimal rendering (Python `str`/`format`) -/

def digitChar (d : ℕ) : Char := Char.ofNat (48 + d)

def charDigit (c : Char) : ℕ := c.toNat - 48

/-- Decimal rendering of a natural number (Python `str(int)`). -/
def natRepr (n : ℕ) : String :=
  if n = 0 then "0" else String.mk (((Nat.digits 10 n).map digitChar).reverse)

/-- Round half to even (Python float formatting/rounding convention). -/
def roundHalfEven (q : ℚ) : ℤ :=
  let f := Rat.floor q
  let r := q - (f : ℚ)
  if r < 1/2 then f else if 1/2 < r then f + 1 else if f % 2 = 0 then f else f + 1

/-- Python `f"{x:.1f}"`. -/
def fmt1 (q : ℚ) : String :=
  let n := roundHalfEven (q * 10)
  (if n < 0 then "-" else "") ++ natRepr (n.natAbs / 10) ++ "." ++ natRepr (n.natAbs % 10)

/-- Python `round(x, 2)` (main.py line 187). -/
def round2 (q : ℚ) : ℚ := ((roundHalfEven (q * 100) : ℤ) : ℚ) / 100

/-- `fit_val = f"{f_raw-100:.1f}%"` (main.py line 179); a NaN capital
    renders as `"nan%"`. -/
def fitStrOf : Option ℚ → String
  | some c => fmt1 (c - 100) ++ "%"
  | none => "nan%"

/-- The weekly backtest outcome for one ticker: the selected window and
    the formatted fitness, or the line-177 error when `battle` is empty. -/
def weeklyResult (closes : List ℚ) : Except String (ℕ × String) :=
  match selectBest (battle closes) with
  | none => Except.error "Could not perform weekly backtest."
  | some (p, oc) => Except.ok (p, fitStrOf oc)

/-! ### Gene cache (main.py lines 94-97, 180-184, 205-210) -/

/-- One row of the gene-cache CSV: ticker, best window, fitness string. -/
structure CacheEntry where
  ticker : String
  bestP : ℕ
  fit : String
  deriving DecidableEq

/-- `cache_df.loc[ticker]` via the index (first matching row). -/
def cacheLookup (cache : List CacheEntry) (t : String) : Option CacheEntry :=
  cache.find? fun e => e.ticker == t

/-- `best_p` used in DAILY analysis: the cached value, defaulting to 20
    (main.py lines 151, 182-183). -/
def cacheBestP (cache : List CacheEntry) (t : String) : ℕ :=
  (cacheLookup cache t).elim 20 (fun e => e.bestP)

/-- `fit_val` used in DAILY analysis: the cached value, defaulting to
    `"N/A"` (main.py lines 151, 184). -/
def cacheFit (cache : List CacheEntry) (t : String) : String :=
  (cacheLookup cache t).elim "N/A" (fun e => e.fit)

/-- Cache rewrite (main.py lines 208-209): old rows whose ticker is not
    re-analyzed, then the new rows. -/
def cacheUpdate (cache newCache : List CacheEntry) : List CacheEntry :=
  cache.filter (fun e => ! newCache.any fun x => x.ticker == e.ticker) ++ newCache

/-! ### Result rows -/

/-- One dictionary appended to `results`.  String fields hold exactly
    the rendered Python values; `target` is `none` for the `"N/A"` of an
    error row and `orderError` is `none` when the key is absent. -/
structure Row where
  name : String
  pField : String
  fit : String
  price : String
  target : Option ℚ
  status : String
  signal : String
  sector : String
  orderError : Option String
  deriving DecidableEq

/-- The error row appended on a per-ticker exception (main.py lines 117
    and 202). -/
def errorRow (t msg : String) : Row :=
  { name := "分析失敗: " ++ t, pField := "N/A", fit := "N/A", price := "N/A",
    target := none, status := "🔴 錯誤", signal := "Data Error",
    sector := "ERROR", orderError := some msg }

/-- `get_sector_label` (main.py lines 50-56). -/
def get_sector_label (t : String) : String :=
  let c := (t.splitOn ".").headD t
  if c = "3481" ∨ c = "2409" then "[面板]"
  else if c = "3260" ∨ c = "2408" ∨ c = "8299" then "[記憶體]"
  else if c = "1513" ∨ c = "1519" ∨ c = "1503" then "[重電]"
  else if c = "2330" ∨ c = "2454" ∨ c = "3017" ∨ c = "2317" then "[AI核心]"
  else "[熱門]"

def listMin : List ℚ → Option ℚ
  | [] => none
  | x :: xs => some (xs.foldl min x)

/-- The successful result row (main.py lines 186-198), given the cleaned
    data frame and the chosen `best_p`/`fit_val`.  Only called on a
    nonempty `df`. -/
def stdRow (t : String) (df : List Bar) (bestP : ℕ) (fitVal : String) : Row :=
  let dfLast := df.getLastD ⟨0, 0, 0, 0, 0⟩
  let last_p := dfLast.close
  let lows := df.map (fun b => b.low)
  let low_20 := (listMin (lows.drop (lows.length - 20))).getD 0
  let target_1382 := round2 (low_20 + (last_p - low_20) * 1.382)
  let closes := df.map (fun b => b.close)
  let ma_val : Option ℚ :=
    if 1 ≤ bestP ∧ bestP ≤ closes.length then
      some ((closes.drop (closes.length - bestP)).sum / (bestP : ℚ))
    else none
  let status := match ma_val with
    | some m => if m < last_p then "✅強勢" else "❌弱勢"
    | none => "❌弱勢"
  let vols := df.map (fun b => b.volume)
  let signal :=
    if dfLast.openP < last_p ∧ 1 < vols.length ∧
        vols.getD (vols.length - 2) 0 < dfLast.volume ∧ status = "✅強勢" then
      "🟢🟢 埋伏"
    else "⚪ 觀察"
  { name := get_sector_label t ++ t, pField := natRepr bestP ++ "d", fit := fitVal,
    price := fmt1 last_p, target := some target_1382, status := status,
    signal := signal, sector := get_sector_label t, orderError := none }

/-! ### The per-ticker loop (main.py lines 124-203) -/

/-- The QUICK_SCAN gate (main.py lines 139-146): at least two cleaned
    rows, a red candle, and volume above 1.2 times the previous day's. -/
def quickPass (df : List Bar) : Bool :=
  decide (2 ≤ df.length) &&
    (decide ((df.getLastD ⟨0, 0, 0, 0, 0⟩).openP < (df.getLastD ⟨0, 0, 0, 0, 0⟩).close) &&
     decide ((df.getD (df.length - 2) ⟨0, 0, 0, 0, 0⟩).volume * 1.2 <
       (df.getLastD ⟨0, 0, 0, 0, 0⟩).volume))

/-- `analysis_mode` (main.py line 71). -/
def analysisModeOf (mode : String) : String :=
  if mode = "MARKET_BACKTEST" ∨ mode = "WEEKLY" then "WEEKLY" else "DAILY"

def WATCHLIST_FILE : String := "/tmp/我的自選清單.txt"

def MARKET_SCAN_LIST_FILE : String := "/tmp/market_scan_list.txt"

def GENE_CACHE_FILE : String := "/tmp/基因快取.csv"

/-- The selected list file (main.py lines 72-77). -/
def listFileOf (mode : String) : String :=
  if mode = "QUICK_SCAN" then MARKET_SCAN_LIST_FILE
  else if mode.startsWith "MARKET" ∨ mode = "QUICK_SCAN" then MARKET_SCAN_LIST_FILE
  else WATCHLIST_FILE

/-- The body of the per-ticker `try` block (main.py lines 126-198):
    either the caught exception's message, or `none` for a QUICK_SCAN
    `continue`, or the result row together with the `new_cache` entry a
    WEEKLY analysis appends. -/
def analyzeTicker (mode : String) (cache : List CacheEntry) (raw : List RawBar)
    (t : String) : Except String (Option (Row × Option CacheEntry)) :=
  if raw = [] ∨ allNull raw then
    Except.error "DataFrame for this ticker is empty or all NaN."
  else
    let df := dropna raw
    if df = [] then Except.error "DataFrame is empty after dropping NaNs."
    else if mode = "QUICK_SCAN" ∧ ¬ quickPass df then Except.ok none
    else if analysisModeOf mode = "WEEKLY" then
      match weeklyResult (df.map fun b => b.close) with
      | Except.error e => Except.error e
      | Except.ok (p, fitV) =>
        Except.ok (some (stdRow t df p fitV, some ⟨t, p, fitV⟩))
    else
      Except.ok (some (stdRow t df (cacheBestP cache t) (cacheFit cache t), none))

/-- Selecting the current ticker's frame from the batch download
    (main.py lines 127-130): column access `all_data[ticker]` for a
    multi-ticker download (a missing key raises), the flat frame
    otherwise. -/
def getRaw (n : ℕ) (d : List (String × List RawBar)) (t : String) :
    Except String (List RawBar) :=
  if 1 < n then
    match d.lookup t with
    | some raw => Except.ok raw
    | none => Except.error (t ++ ": KeyError")
  else Except.ok ((d.head?.map Prod.snd).getD [])

/-- One iteration of the analysis loop: the appended row (if any) and
    the appended `new_cache` entry (if any); the `except` clause turns
    any raised message into an error row (main.py lines 200-203). -/
def iterTicker (mode : String) (cache : List CacheEntry) (n : ℕ)
    (d : List (String × List RawBar)) (t : String) : Option Row × Option CacheEntry :=
  match getRaw n d t with
  | Except.error e => (some (errorRow t e), none)
  | Except.ok raw =>
    match analyzeTicker mode cache raw t with
    | Except.error e => (some (errorRow t e), none)
    | Except.ok none => (none, none)
    | Except.ok (some (r, ce)) => (some r, ce)

/-! ### Target parsing and the full run -/

/-- `[l.strip() for l in f if l.strip() and not l.startswith("#")]`
    (main.py line 83).  Note the membership test strips the line but the
    comment test inspects the unstripped line, exactly as in the source. -/
def parseTargets (ls : List String) : List String :=
  ls.filterMap fun l => if l.trim ≠ "" ∧ ¬ l.startsWith "#" then some l.trim else none

/-- The `^TWII` stability removal (main.py lines 86-88): when more than
    one target is present, `targets.remove("^TWII")` deletes the first
    occurrence. -/
def finalTargetsOf (ls : List String) : List String :=
  let targets := parseTargets ls
  if 1 < targets.length ∧ "^TWII" ∈ targets then targets.erase "^TWII" else targets

/-- `all_data.empty` (main.py line 112). -/
def dlEmpty (d : List (String × List RawBar)) : Bool := d.all fun x => x.2.isEmpty

/-- The tuple `run_stable_hunter` returns, plus the cache rewrite it
    performs as a side effect (`none` when `new_cache` stays empty). -/
structure RunOutput where
  results : List Row
  scanTime : String
  analysisMode : String
  listFile : String
  cacheWrite : Option (List CacheEntry)
  deriving DecidableEq

/-- `run_stable_hunter` (main.py lines 68-212).  `scanTime` stands for
    the wall-clock string, `fileLines` for the selected list file's
    lines, `cache` for the parsed gene cache, and `dl` for the outcome
    of the unified `yf.download` call. -/
def run_stable_hunter (mode scanTime : String) (fileLines : List String)
    (cache : List CacheEntry) (dl : Except String (List (String × List RawBar))) :
    RunOutput :=
  let aMode := analysisModeOf mode
  let lf := listFileOf mode
  let targets := finalTargetsOf fileLines
  if targets = [] then ⟨[], scanTime, aMode, lf, none⟩
  else
    match dl with
    | Except.error e => ⟨targets.map (fun t => errorRow t e), scanTime, aMode, lf, none⟩
    | Except.ok d =>
      if dlEmpty d then
        ⟨targets.map (fun t => errorRow t "yf.download returned an empty DataFrame."),
         scanTime, aMode, lf, none⟩
      else
        let rcs := targets.map (iterTicker mode cache targets.length d)
        let newCache := rcs.filterMap Prod.snd
        ⟨rcs.filterMap Prod.fst, scanTime, aMode, lf,
         if newCache = [] then none else some (cacheUpdate cache newCache)⟩

/-! ### The gene-cache CSV file (main.py lines 95, 210), modelled at the
    level of rows of fields (the granularity pandas quoting round-trips),
    with `pd.read_csv`'s default NA-marker and per-column dtype coercion
    made explicit on the read side. -/

def cacheHeader : List String := ["ticker", "best_p", "fit"]

/-- `updated_cache_df.to_csv(GENE_CACHE_FILE)` (main.py line 210). -/
def cacheToCsv (m : List CacheEntry) : List (List String) :=
  cacheHeader :: m.map fun e => [e.ticker, natRepr e.bestP, e.fit]

/-- The default `na_values` of `pd.read_csv`: a field equal to one of
    these strings is read back as NaN. -/
def pdNaValues : List String :=
  ["", "#N/A", "#N/A N/A", "#NA", "-1.#IND", "-1.#QNAN", "-NaN", "-nan",
   "1.#IND", "1.#QNAN", "<NA>", "N/A", "NA", "NULL", "NaN", "None", "n/a",
   "nan", "null"]

/-- The value of a little-endian-reversed decimal digit-character list. -/
def digitsVal (cs : List Char) : ℕ :=
  Nat.ofDigits 10 ((cs.map charDigit).reverse)

def pdExpDigits (cs : List Char) : Option ℤ :=
  match cs with
  | '-' :: ds =>
    if ds ≠ [] ∧ ds.all Char.isDigit then some (-(digitsVal ds : ℤ)) else none
  | '+' :: ds =>
    if ds ≠ [] ∧ ds.all Char.isDigit then some ((digitsVal ds : ℤ)) else none
  | ds =>
    if ds ≠ [] ∧ ds.all Char.isDigit then some ((digitsVal ds : ℤ)) else none

/-- An optional exponent suffix of a numeric field. -/
def pdExp? : List Char → Option ℤ
  | [] => some 0
  | 'e' :: rest => pdExpDigits rest
  | 'E' :: rest => pdExpDigits rest
  | _ => none

/-- `pd.read_csv`'s numeric coercion of a field: an optional sign, a
    decimal mantissa, and an optional exponent (pandas' special float
    spellings such as `inf` are not modelled). -/
def pdNumericOf (s : String) : Option ℚ :=
  if s.data = [] then none
  else
    let sgn : ℚ := if s.data.head? = some '-' then -1 else 1
    let cs1 :=
      if s.data.head? = some '-' ∨ s.data.head? = some '+' then s.data.tail
      else s.data
    let ip := cs1.takeWhile Char.isDigit
    let r1 := cs1.dropWhile Char.isDigit
    match r1 with
    | '.' :: fr =>
      let fd := fr.takeWhile Char.isDigit
      let r2 := fr.dropWhile Char.isDigit
      if ip = [] ∧ fd = [] then none
      else
        match pdExp? r2 with
        | some ex =>
          some (sgn * ((digitsVal ip : ℚ) + (digitsVal fd : ℚ) / (10 : ℚ) ^ fd.length)
            * (10 : ℚ) ^ ex)
        | none => none
    | _ =>
      if ip = [] then none
      else
        match pdExp? r1 with
        | some ex => some (sgn * (digitsVal ip : ℚ) * (10 : ℚ) ^ ex)
        | none => none

/-- `pd.read_csv`'s boolean coercion of a field. -/
def pdBoolOf (s : String) : Option Bool :=
  if s = "True" ∨ s = "TRUE" then some true
  else if s = "False" ∨ s = "FALSE" then some false
  else none

/-- A cell as materialized by `pd.read_csv`: NaN from an NA marker, a
    number or boolean from a coerced column, or the field string itself
    in an object column.  Integer and float columns are both `num`, in
    line with the exact-rational embedding. -/
inductive PdCell where
  | na
  | num (q : ℚ)
  | boolean (b : Bool)
  | str (s : String)
  deriving DecidableEq

/-- A cell of an object-dtype column. -/
def readCell (s : String) : PdCell :=
  if s ∈ pdNaValues then PdCell.na else PdCell.str s

/-- `pd.read_csv`'s per-column dtype inference: if every non-NA field of
    the column parses as a number the column is numeric; otherwise, if
    every non-NA field is a boolean literal the column is boolean;
    otherwise it is an object column of the field strings.  NA markers
    become NaN in every case. -/
def readColumn (cells : List String) : List PdCell :=
  let nonNA := cells.filter fun s => ! decide (s ∈ pdNaValues)
  if nonNA.all fun s => (pdNumericOf s).isSome then
    cells.map fun s =>
      if s ∈ pdNaValues then PdCell.na
      else (pdNumericOf s).elim (PdCell.str s) PdCell.num
  else if nonNA.all fun s => (pdBoolOf s).isSome then
    cells.map fun s =>
      if s ∈ pdNaValues then PdCell.na
      else (pdBoolOf s).elim (PdCell.str s) PdCell.boolean
  else cells.map readCell

/-- One row of the gene cache as it comes back from `pd.read_csv`. -/
structure ReadEntry where
  ticker : PdCell
  bestP : PdCell
  fit : PdCell
  deriving DecidableEq

def zipCells : List PdCell → List PdCell → List PdCell → List ReadEntry
  | t :: ts, p :: ps, f :: fs => ⟨t, p, f⟩ :: zipCells ts ps fs
  | _, _, _ => []

def colOf (i : ℕ) (body : List (List String)) : List String :=
  body.map fun r => r.getD i ""

/-- `pd.read_csv(GENE_CACHE_FILE).set_index('ticker')` (main.py line
    95): header check, then the three columns read with NA-marker and
    dtype coercion. -/
def csvToCache (file : List (List String)) : Option (List ReadEntry) :=
  match file with
  | [] => none
  | h :: body =>
    if h = cacheHeader ∧ body.all (fun r => decide (r.length = 3)) then
      some (zipCells (readColumn (colOf 0 body)) (readColumn (colOf 1 body))
        (readColumn (colOf 2 body)))
    else none

/-- What an in-memory cache row must read back as for the round trip to
    hold: the same ticker string, the window as its number (which line
    183's `int(...)` recovers), and the same fitness string. -/
def asRead (e : CacheEntry) : ReadEntry :=
  ⟨PdCell.str e.ticker, PdCell.num (e.bestP : ℚ), PdCell.str e.fit⟩

/-- A field string that `pd.read_csv` leaves alone: not an NA marker and
    not numeric- or boolean-coercible. -/
def plainStr (s : String) : Bool :=
  (! decide (s ∈ pdNaValues)) && (pdNumericOf s).isNone && (pdBoolOf s).isNone

/-! ### Spec-level trade extraction (for the compounded-capital claim) -/

/-- Modelled from the spec: walking the (close, above-average) rows, a
    cross above the average opens a position at that row's close and a
    cross below it closes the position at that row's close, yielding the
    list of (entry close, exit close) pairs of closed trades and the
    entry price of a position still open at the end. -/
def specGo (pa : Bool) (pos : Option ℚ) : List (ℚ × Bool) → List (ℚ × ℚ) × Option ℚ
  | [] => ([], pos)
  | (c, a) :: rest =>
    if a && !pa then specGo a (some c) rest
    else if !a && pa then
      match pos with
      | some e =>
        let r := specGo a none rest
        ((e, c) :: r.1, r.2)
      | none => specGo a none rest
    else specGo a pos rest

/-- Modelled from the spec: the closed trades and the open entry of the
    window-`p` strategy; the first row carries no signal. -/
def specTrades (p : ℕ) (closes : List ℚ) : List (ℚ × ℚ) × Option ℚ :=
  match rowsOf p closes with
  | [] => ([], none)
  | (_, a) :: rest => specGo a none rest

def specLastClose (p : ℕ) (closes : List ℚ) : ℚ :=
  (((rowsOf p closes).getLast?).map Prod.fst).getD 0

/-- Modelled from the spec: 100 times the product of (1 + per-trade
    return) across all closed trades. -/
def specClosedCapital (p : ℕ) (closes : List ℚ) : ℚ :=
  100 * ((specTrades p closes).1.map fun pr => 1 + tradeReturn pr.1 pr.2).prod

/-- Modelled from the spec plus the open-position mark-to-market factor
    the code actually applies at the final close. -/
def specCapital (p : ℕ) (closes : List ℚ) : ℚ :=
  specClosedCapital p closes *
    (match (specTrades p closes).2 with
     | some e => 1 + tradeReturn e (specLastClose p closes)
     | none => 1)

/-! ### Proof-side summary of the pipeline state machine -/

/-- Summary of the pipeline on a row list, carrying the previous
    `above_ma` value and the running forward-filled entry price: the
    (entry, exit) data of every sell row, the final forward-filled entry
    price, and the last row's `above_ma`. -/
def pipeSummary (pa : Bool) (held : Option ℚ) :
    List (ℚ × Bool) → List (Option ℚ × ℚ) × Option ℚ × Bool
  | [] => ([], held, pa)
  | (c, a) :: rest =>
    let sig := sigOf (some pa) a
    let held' := if sig = some 1 then some c else held
    let r := pipeSummary a held' rest
    ((if sig = some (-1) then [(held, c)] else []) ++ r.1, r.2)

/-- The pipeline summary started from the first row (which carries no
    signal). -/
def pipeTop : List (ℚ × Bool) → List (Option ℚ × ℚ) × Option ℚ × Bool
  | [] => ([], none, false)
  | (_, a) :: rest => pipeSummary a none rest

/-! ### Lemmas about the backtest pipeline -/

theorem buildRows_close_above (pa : Option Bool) (held : Option ℚ)
    (rows : List (ℚ × Bool)) :
    (buildRows pa held rows).map (fun r => (r.close, r.above)) = rows := by
  induction rows generalizing pa held with
  | nil => rfl
  | cons x rest ih =>
    obtain ⟨c, a⟩ := x
    simp [buildRows, ih]

theorem buildRows_length (pa : Option Bool) (held : Option ℚ)
    (rows : List (ℚ × Bool)) : (buildRows pa held rows).length = rows.length := by
  have h := congrArg List.length (buildRows_close_above pa held rows)
  simpa using h

theorem pipeSummary_sells (rows : List (ℚ × Bool)) :
    ∀ (pa : Bool) (held : Option ℚ),
    ((buildRows (some pa) held rows).filter isSellRow).map
        (fun r => (r.entryHeld, r.close)) = (pipeSummary pa held rows).1 := by
  induction rows with
  | nil => intro pa held; rfl
  | cons x rest ih =>
    intro pa held
    obtain ⟨c, a⟩ := x
    cases pa <;> cases a <;>
      simp [buildRows, pipeSummary, sigOf, isSellRow, List.filter_cons, ih]

theorem sigOf_ff : sigOf (some false) false = some 0 := by decide

theorem sigOf_ft : sigOf (some false) true = some 1 := by decide

theorem sigOf_tf : sigOf (some true) false = some (-1) := by decide

theorem sigOf_tt : sigOf (some true) true = some 0 := by decide

theorem pipeSummary_held (rows : List (ℚ × Bool)) :
    ∀ (pa : Bool) (held : Option ℚ),
    (pipeSummary pa held rows).2.1
      = ((buildRows (some pa) held rows).filter isBuyRow).getLast?.elim held
          (fun r => some r.close) := by
  induction rows with
  | nil => intro pa held; rfl
  | cons x rest ih =>
    intro pa held
    obtain ⟨c, a⟩ := x
    cases pa <;> cases a
    · simpa [buildRows, pipeSummary, sigOf_ff, isBuyRow, List.filter_cons] using ih false held
    · -- a buy row: the forward fill restarts at `some c`
      simp only [buildRows, pipeSummary, sigOf_ft, isBuyRow, List.filter_cons]
      simp only [reduceIte, decide_eq_true_eq, if_pos rfl]
      rw [ih true (some c)]
      cases hK : (buildRows (some true) (some c) rest).filter isBuyRow with
      | nil => simp
      | cons k ks =>
        rw [List.getLast?_cons_cons]
        obtain ⟨r, hr⟩ := Option.isSome_iff_exists.mp
          (List.getLast?_isSome.mpr (List.cons_ne_nil k ks))
        rw [hr]
        rfl
    · simpa [buildRows, pipeSummary, sigOf_tf, isBuyRow, List.filter_cons] using ih false held
    · simpa [buildRows, pipeSummary, sigOf_tt, isBuyRow, List.filter_cons] using ih true held

theorem pipeSummary_above (rows : List (ℚ × Bool)) :
    ∀ (pa : Bool) (held : Option ℚ),
    (pipeSummary pa held rows).2.2
      = ((buildRows (some pa) held rows).getLast?.map (fun r => r.above)).getD pa := by
  induction rows with
  | nil => intro pa held; rfl
  | cons x rest ih =>
    intro pa held
    obtain ⟨c, a⟩ := x
    have step : ∀ (sig : Option Int) (held' : Option ℚ),
        (((⟨c, a, sig, held'⟩ : StratRow) :: buildRows (some a) held' rest).getLast?.map
            (fun r => r.above)).getD pa
          = ((buildRows (some a) held' rest).getLast?.map (fun r => r.above)).getD a := by
      intro sig held'
      cases hK : buildRows (some a) held' rest with
      | nil => simp
      | cons k ks =>
        rw [List.getLast?_cons_cons]
        obtain ⟨r, hr⟩ := Option.isSome_iff_exists.mp
          (List.getLast?_isSome.mpr (List.cons_ne_nil k ks))
        rw [hr]
        rfl
    cases pa <;> cases a <;>
      simp only [buildRows, pipeSummary, sigOf_ff, sigOf_ft, sigOf_tf, sigOf_tt] <;>
      rw [step] <;>
      simp [ih]

theorem specGo_pipe (rows : List (ℚ × Bool)) :
    ∀ (pa : Bool) (held : Option ℚ),
    specGo pa (if pa then held else none) rows
      = ((pipeSummary pa held rows).1.filterMap (fun x => x.1.map (fun e => (e, x.2))),
         if (pipeSummary pa held rows).2.2 then (pipeSummary pa held rows).2.1 else none) := by
  induction rows with
  | nil =>
    intro pa held
    cases pa <;> simp [specGo, pipeSummary]
  | cons x rest ih =>
    intro pa held
    obtain ⟨c, a⟩ := x
    cases pa <;> cases a
    · simpa [specGo, pipeSummary, sigOf_ff] using ih false held
    · simpa [specGo, pipeSummary, sigOf_ft] using ih true (some c)
    · cases held with
      | none => simpa [specGo, pipeSummary, sigOf_tf] using ih false none
      | some e =>
        have h2 := ih false (some e)
        simp at h2
        simp [specGo, pipeSummary, sigOf_tf, List.filterMap_cons, h2]
    · simpa [specGo, pipeSummary, sigOf_tt] using ih true held

theorem rowsOf_fst_mem (p : ℕ) (closes : List ℚ) :
    ∀ x ∈ rowsOf p closes, x.1 ∈ closes := by
  intro x hx
  simp only [rowsOf, List.mem_map] at hx
  obtain ⟨y, hy, rfl⟩ := hx
  simp only [rollingRows, List.mem_filterMap, List.mem_range] at hy
  obtain ⟨i, hi, hif⟩ := hy
  by_cases hp : p ≤ i + 1
  · rw [if_pos hp] at hif
    obtain rfl : (closes.getD i 0, ((closes.drop (i + 1 - p)).take p).sum / (p : ℚ)) = y := by
      simpa using hif
    rw [List.getD_eq_getElem _ _ hi]
    exact List.getElem_mem hi
  · rw [if_neg hp] at hif
    exact absurd hif (by simp)

theorem stratRows_close_mem (p : ℕ) (closes : List ℚ) :
    ∀ r ∈ stratRows p closes, r.close ∈ closes := by
  intro r hr
  have h1 : (r.close, r.above) ∈ rowsOf p closes := by
    rw [← buildRows_close_above none none (rowsOf p closes)]
    exact List.mem_map_of_mem _ hr
  exact rowsOf_fst_mem p closes _ h1

theorem stratRows_first (c : ℚ) (a : Bool) (rest : List (ℚ × Bool)) :
    buildRows none none ((c, a) :: rest)
      = ⟨c, a, none, none⟩ :: buildRows (some a) none rest := rfl

theorem tradeRows_pairs (p : ℕ) (closes : List ℚ) :
    (tradeRows p closes).map (fun r => (r.entryHeld, r.close))
      = (pipeTop (rowsOf p closes)).1 := by
  unfold tradeRows stratRows pipeTop
  cases h : rowsOf p closes with
  | nil => rfl
  | cons x rest =>
    obtain ⟨c, a⟩ := x
    rw [stratRows_first]
    simp [List.filter_cons, isSellRow, pipeSummary_sells rest a none]

theorem stratRows_nil (p : ℕ) (closes : List ℚ) (h : rowsOf p closes = []) :
    stratRows p closes = [] := by
  unfold stratRows
  rw [h]
  rfl

theorem openProfit_pipe (p : ℕ) (closes : List ℚ)
    (hpos : ∀ c ∈ closes, c ≠ 0) :
    openProfit p closes
      = (if (pipeTop (rowsOf p closes)).2.2 then (pipeTop (rowsOf p closes)).2.1
         else none).map (fun e => tradeReturn e (specLastClose p closes)) := by
  cases h : rowsOf p closes with
  | nil =>
    have hs := stratRows_nil p closes h
    simp [openProfit, hs, pipeTop]
  | cons x rest =>
    obtain ⟨c, a⟩ := x
    have hs : stratRows p closes = ⟨c, a, none, none⟩ :: buildRows (some a) none rest := by
      unfold stratRows
      rw [h]
      rfl
    have hbuys : (stratRows p closes).filter isBuyRow
        = (buildRows (some a) none rest).filter isBuyRow := by
      rw [hs]
      simp [List.filter_cons, isBuyRow]
    have hlastclose : specLastClose p closes
        = (((stratRows p closes).getLast?).map (fun r => r.close)).getD 0 := by
      unfold specLastClose
      have hmap : rowsOf p closes = (stratRows p closes).map (fun r => (r.close, r.above)) := by
        unfold stratRows
        rw [buildRows_close_above]
      rw [hmap, List.getLast?_map]
      cases (stratRows p closes).getLast? <;> rfl
    simp only [pipeTop]
    cases hb : buildRows (some a) none rest with
    | nil =>
      have hrest : rest = [] := by
        have hlen := buildRows_length (some a) none rest
        rw [hb] at hlen
        exact List.length_eq_zero.mp hlen.symm
      subst hrest
      have hlast : (stratRows p closes).getLast? = some ⟨c, a, none, none⟩ := by
        rw [hs, hb]
        rfl
      simp only [openProfit, hlast]
      rw [hbuys, hb]
      cases a <;> simp [pipeSummary]
    | cons k ks =>
      obtain ⟨lr, hlr⟩ := Option.isSome_iff_exists.mp
        (List.getLast?_isSome.mpr (List.cons_ne_nil k ks))
      have hlast : (stratRows p closes).getLast? = some lr := by
        rw [hs, hb, List.getLast?_cons_cons, hlr]
      have habove : (pipeSummary a none rest).2.2 = lr.above := by
        rw [pipeSummary_above rest a none, hb, hlr]
        rfl
      have hheld2 : (pipeSummary a none rest).2.1
          = ((stratRows p closes).filter isBuyRow).getLast?.elim none
              (fun r => some r.close) := by
        rw [pipeSummary_held rest a none, ← hbuys]
      rw [hlastclose, hlast, habove, hheld2]
      simp only [openProfit, hlast]
      cases hab : lr.above with
      | false => simp [hab]
      | true =>
        cases hbg : ((stratRows p closes).filter isBuyRow).getLast? with
        | none => simp [hab, hbg]
        | some br =>
          have hbr0 : br.close ≠ 0 := by
            apply hpos
            apply stratRows_close_mem p closes
            exact (List.mem_filter.mp (List.mem_of_mem_getLast? hbg)).1
          simp [hab, hbg, hbr0]

theorem specTrades_pipe (p : ℕ) (closes : List ℚ) :
    specTrades p closes
      = ((pipeTop (rowsOf p closes)).1.filterMap (fun x => x.1.map (fun e => (e, x.2))),
         if (pipeTop (rowsOf p closes)).2.2 then (pipeTop (rowsOf p closes)).2.1
         else none) := by
  unfold specTrades
  cases h : rowsOf p closes with
  | nil => simp [pipeTop]
  | cons x rest =>
    obtain ⟨c, a⟩ := x
    have h2 := specGo_pipe rest a none
    rw [ite_self] at h2
    simpa [pipeTop] using h2

theorem profits_filterMap (ts : List StratRow)
    (h : ∀ r ∈ ts, r.entryHeld.isSome = true) :
    ((ts.map fun r => r.entryHeld.map fun e => tradeReturn e r.close).filterMap id)
      = (((ts.map fun r => (r.entryHeld, r.close)).filterMap
            (fun x => x.1.map fun e => (e, x.2))).map fun pr => tradeReturn pr.1 pr.2) := by
  induction ts with
  | nil => rfl
  | cons r ts ih =>
    have h0 := h r (List.mem_cons_self r ts)
    obtain ⟨e, he⟩ := Option.isSome_iff_exists.mp h0
    simp [List.filterMap_cons, he, ih (fun x hx => h x (List.mem_cons_of_mem _ hx))]

theorem tradeProfits_of_entries (p : ℕ) (closes : List ℚ)
    (hns : ∀ r ∈ tradeRows p closes, r.entryHeld.isSome = true) :
    tradeProfits p closes
      = (tradeRows p closes).map (fun r => r.entryHeld.map fun e => tradeReturn e r.close) := by
  unfold tradeProfits
  by_cases hts : tradeRows p closes = []
  · simp [hts]
  · have hall : ¬ ((tradeRows p closes).all (fun r => r.entryHeld.isNone) = true) := by
      intro hcontra
      obtain ⟨r0, hr0⟩ := List.exists_mem_of_ne_nil _ hts
      have h1 := List.all_eq_true.mp hcontra r0 hr0
      have h2 := hns r0 hr0
      rw [Option.isNone_iff_eq_none] at h1
      rw [h1] at h2
      exact absurd h2 (by simp)
    rw [if_neg (not_or.mpr ⟨hts, hall⟩)]

/-- C1 (amended): for every candidate window and every positive price
    series whose strategy does not signal an exit before its first entry
    (formally: every trade row carries a forward-filled entry price),
    the WEEKLY-backtest terminal capital equals 100 times the product of
    (1 + per-trade net return) over the closed trades, times one further
    factor for a position still open on the last row, exited at the
    final close; each return is (exit - entry) / entry - 0.004. -/
theorem c1_weekly_capital_amended (p : ℕ) (closes : List ℚ)
    (hpos : ∀ c ∈ closes, 0 < c)
    (hns : ∀ r ∈ tradeRows p closes, r.entryHeld.isSome = true) :
    capital p closes = some (specCapital p closes) := by
  have hpos2 : ∀ c ∈ closes, c ≠ 0 := fun c hc => ne_of_gt (hpos c hc)
  have hTP := tradeProfits_of_entries p closes hns
  have hOP := openProfit_pipe p closes hpos2
  have hST := specTrades_pipe p closes
  have hAllSome : (allProfits p closes).all Option.isSome = true := by
    rw [List.all_eq_true]
    intro x hx
    rw [allProfits, List.mem_append] at hx
    cases hx with
    | inl hx =>
      rw [hTP] at hx
      obtain ⟨r, hr, rfl⟩ := List.mem_map.mp hx
      obtain ⟨e, he⟩ := Option.isSome_iff_exists.mp (hns r hr)
      simp [he]
    | inr hx =>
      obtain ⟨y, hy, rfl⟩ := List.mem_map.mp hx
      rfl
  have hP1 : (((tradeProfits p closes).filterMap id).map fun x => 1 + x).prod
      = ((specTrades p closes).1.map fun pr => 1 + tradeReturn pr.1 pr.2).prod := by
    rw [hTP, profits_filterMap (tradeRows p closes) hns, tradeRows_pairs p closes, hST,
      List.map_map]
    rfl
  have hP2 : ((((openProfit p closes).toList.map some).filterMap id).map fun x => 1 + x).prod
      = (match (specTrades p closes).2 with
         | some e => 1 + tradeReturn e (specLastClose p closes)
         | none => 1) := by
    rw [hOP, hST]
    cases hF : (if (pipeTop (rowsOf p closes)).2.2 then (pipeTop (rowsOf p closes)).2.1
        else none) with
    | none => simp
    | some e => simp
  unfold capital
  rw [if_pos hAllSome, allProfits, List.filterMap_append, List.map_append, List.prod_append,
    hP1, hP2]
  have h100 : (100.0 : ℚ) = 100 := by norm_num
  rw [h100]
  unfold specCapital specClosedCapital
  ring_nf

/-- C1 counterexample: with window 10 and ten closes of 1 followed by
    two closes of 2, there are no closed trades, so the claim as written
    predicts a terminal capital of exactly 100; the code instead returns
    99.6 because it also books the still-open position, exited at the
    final close, as a trade. -/
theorem c1_weekly_capital_counterexample :
    capital 10 [1, 1, 1, 1, 1, 1, 1, 1, 1, 1, 2, 2] = some (498/5)
      ∧ specClosedCapital 10 [1, 1, 1, 1, 1, 1, 1, 1, 1, 1, 2, 2] = 100
      ∧ (498/5 : ℚ) ≠ 100 := by
  refine ⟨by with_unfolding_all decide, by with_unfolding_all decide, by norm_num⟩

/-- Witness for C1: the amended statement instantiated on the same
    twelve-close series with window 10. -/
theorem c1_weekly_capital_witness :
    capital 10 [1, 1, 1, 1, 1, 1, 1, 1, 1, 1, 2, 2]
      = some (specCapital 10 [1, 1, 1, 1, 1, 1, 1, 1, 1, 1, 2, 2]) :=
  c1_weekly_capital_amended 10 [1, 1, 1, 1, 1, 1, 1, 1, 1, 1, 2, 2]
    (by with_unfolding_all decide) (by with_unfolding_all decide)

/-! ### Selection of the best window (claim C2) -/

/-- The comparison step of `sorted(..., reverse=True)[0]` on numeric keys. -/
def selStep (b y : ℕ × Option ℚ) : ℕ × Option ℚ :=
  match b.2, y.2 with
  | some bc, some yc => if bc < yc then y else b
  | _, _ => b

theorem selectBest_cons (x : ℕ × Option ℚ) (xs : List (ℕ × Option ℚ)) :
    selectBest (x :: xs) = some (xs.foldl selStep x) := rfl

theorem selStep_foldl (xs : List (ℕ × Option ℚ)) :
    ∀ b : ℕ × Option ℚ, b.2.isSome = true → (∀ x ∈ xs, x.2.isSome = true) →
      (xs.foldl selStep b ∈ b :: xs) ∧ (xs.foldl selStep b).2.isSome = true ∧
      ∀ x ∈ b :: xs, ∀ v w, x.2 = some v → (xs.foldl selStep b).2 = some w → v ≤ w := by
  induction xs with
  | nil =>
    intro b hb _
    refine ⟨List.mem_cons_self b [], hb, ?_⟩
    intro x hx v w hv hw
    rw [List.mem_singleton] at hx
    subst hx
    rw [List.foldl_nil, hv] at hw
    cases hw
    exact le_refl v
  | cons y ys ih =>
    intro b hb hxs
    have hy : y.2.isSome = true := hxs y (List.mem_cons_self y ys)
    obtain ⟨bv, hbv⟩ := Option.isSome_iff_exists.mp hb
    obtain ⟨yv, hyv⟩ := Option.isSome_iff_exists.mp hy
    have hstep : selStep b y = if bv < yv then y else b := by
      unfold selStep
      rw [hbv, hyv]
    have hstep_some : (selStep b y).2.isSome = true := by
      rw [hstep]
      by_cases hlt : bv < yv
      · rw [if_pos hlt]; exact hy
      · rw [if_neg hlt]; exact hb
    have hys : ∀ x ∈ ys, x.2.isSome = true := fun x hx => hxs x (List.mem_cons_of_mem _ hx)
    obtain ⟨hmem, hsome, hmax⟩ := ih (selStep b y) hstep_some hys
    have hfold : (y :: ys).foldl selStep b = ys.foldl selStep (selStep b y) := rfl
    rw [hfold]
    refine ⟨?_, hsome, ?_⟩
    · rcases List.mem_cons.mp hmem with h | h
      · rw [h, hstep]
        by_cases hlt : bv < yv
        · rw [if_pos hlt]
          exact List.mem_cons_of_mem _ (List.mem_cons_self _ _)
        · rw [if_neg hlt]
          exact List.mem_cons_self _ _
      · exact List.mem_cons_of_mem _ (List.mem_cons_of_mem _ h)
    · intro x hx v w hv hw
      have hstep_ge_b : ∀ sv, (selStep b y).2 = some sv → bv ≤ sv := by
        intro sv hsv
        rw [hstep] at hsv
        by_cases hlt : bv < yv
        · rw [if_pos hlt, hyv] at hsv
          cases hsv
          exact le_of_lt hlt
        · rw [if_neg hlt, hbv] at hsv
          cases hsv
          exact le_refl bv
      have hstep_ge_y : ∀ sv, (selStep b y).2 = some sv → yv ≤ sv := by
        intro sv hsv
        rw [hstep] at hsv
        by_cases hlt : bv < yv
        · rw [if_pos hlt, hyv] at hsv
          cases hsv
          exact le_refl yv
        · rw [if_neg hlt, hbv] at hsv
          cases hsv
          exact le_of_not_lt hlt
      obtain ⟨sv, hsv⟩ := Option.isSome_iff_exists.mp hstep_some
      have hsv_le : sv ≤ w :=
        hmax (selStep b y) (List.mem_cons_self _ _) sv w hsv hw
      rcases List.mem_cons.mp hx with rfl | hx2
      · rw [hbv] at hv
        cases hv
        exact le_trans (hstep_ge_b sv hsv) hsv_le
      · rcases List.mem_cons.mp hx2 with rfl | hx3
        · rw [hyv] at hv
          cases hv
          exact le_trans (hstep_ge_y sv hsv) hsv_le
        · exact hmax x (List.mem_cons_of_mem _ hx3) v w hv hw

/-- C2: on a WEEKLY analysis whose evaluated candidate windows all have
    numeric (non-NaN) terminal capital, the selected `best_p` is one of
    the evaluated windows, its compounded terminal capital is maximal
    among all evaluated candidates, and the reported fitness is that
    maximal capital minus the initial 100, rendered as a one-decimal
    percentage string. -/
theorem c2_best_window_maximal (closes : List ℚ)
    (hne : battle closes ≠ [])
    (hnum : ∀ x ∈ battle closes, x.2.isSome = true) :
    ∃ p c, (p, some c) ∈ battle closes
      ∧ (∀ q x, (q, some x) ∈ battle closes → x ≤ c)
      ∧ weeklyResult closes = Except.ok (p, fmt1 (c - 100) ++ "%") := by
  cases hbat : battle closes with
  | nil => exact absurd hbat hne
  | cons b xs =>
    have hb : b.2.isSome = true := hnum b (by rw [hbat]; exact List.mem_cons_self b xs)
    have hxs : ∀ x ∈ xs, x.2.isSome = true :=
      fun x hx => hnum x (by rw [hbat]; exact List.mem_cons_of_mem _ hx)
    obtain ⟨hmem, hsome, hmax⟩ := selStep_foldl xs b hb hxs
    obtain ⟨c, hc⟩ := Option.isSome_iff_exists.mp hsome
    refine ⟨(xs.foldl selStep b).1, c, ?_, ?_, ?_⟩
    · have heq : ((xs.foldl selStep b).1, some c) = xs.foldl selStep b := by
        rw [← hc]
      rw [heq]
      exact hmem
    · intro q x hqx
      exact hmax (q, some x) hqx x c rfl hc
    · unfold weeklyResult
      rw [hbat, selectBest_cons]
      show Except.ok ((xs.foldl selStep b).1, fitStrOf (xs.foldl selStep b).2)
          = Except.ok ((xs.foldl selStep b).1, fmt1 (c - 100) ++ "%")
      rw [hc]
      rfl

/-- Witness for C2: on the twelve-close series only window 10 is
    evaluated and it is selected with capital 99.6, fitness `-0.4%`. -/
theorem c2_best_window_witness :
    ∃ p c, (p, some c) ∈ battle [1, 1, 1, 1, 1, 1, 1, 1, 1, 1, 2, 2]
      ∧ (∀ q x, (q, some x) ∈ battle [1, 1, 1, 1, 1, 1, 1, 1, 1, 1, 2, 2] → x ≤ c)
      ∧ weeklyResult [1, 1, 1, 1, 1, 1, 1, 1, 1, 1, 2, 2]
          = Except.ok (p, fmt1 (c - 100) ++ "%") :=
  c2_best_window_maximal [1, 1, 1, 1, 1, 1, 1, 1, 1, 1, 2, 2]
    (by with_unfolding_all decide) (by with_unfolding_all decide)

/-- C3: the per-ticker backtest is deterministic and reproducible: for
    equal downloaded frames, cache states and candidate window, two runs
    compute equal terminal capital, equal weekly outcome (best window
    and fitness) and equal per-ticker analysis results. -/
theorem c3_backtest_deterministic (mode : String) (cache cache2 : List CacheEntry)
    (raw raw2 : List RawBar) (t : String) (p : ℕ)
    (hraw : raw = raw2) (hcache : cache = cache2) :
    capital p (List.map (fun b => b.close) (dropna raw))
        = capital p (List.map (fun b => b.close) (dropna raw2))
      ∧ weeklyResult (List.map (fun b => b.close) (dropna raw))
        = weeklyResult (List.map (fun b => b.close) (dropna raw2))
      ∧ analyzeTicker mode cache raw t = analyzeTicker mode cache2 raw2 t := by
  subst hraw
  subst hcache
  exact ⟨rfl, rfl, rfl⟩

/-- Witness for C3: instantiated at a one-row frame. -/
theorem c3_backtest_deterministic_witness :
    capital 10 (List.map (fun b => b.close) (dropna [⟨some 1, some 1, some 1, some 1, some 1⟩]))
        = capital 10 (List.map (fun b => b.close) (dropna [⟨some 1, some 1, some 1, some 1, some 1⟩]))
      ∧ weeklyResult (List.map (fun b => b.close) (dropna [⟨some 1, some 1, some 1, some 1, some 1⟩]))
        = weeklyResult (List.map (fun b => b.close) (dropna [⟨some 1, some 1, some 1, some 1, some 1⟩]))
      ∧ analyzeTicker "WEEKLY" [] [⟨some 1, some 1, some 1, some 1, some 1⟩] "2330.TW"
        = analyzeTicker "WEEKLY" [] [⟨some 1, some 1, some 1, some 1, some 1⟩] "2330.TW" :=
  c3_backtest_deterministic "WEEKLY" [] [] [⟨some 1, some 1, some 1, some 1, some 1⟩]
    [⟨some 1, some 1, some 1, some 1, some 1⟩] "2330.TW" 10 rfl rfl

/-- C4: when the unified download raises, the run returns exactly one
    error row per requested ticker, each marked with the error status
    and carrying the raised message; no ticker is analyzed and the cache
    is not rewritten. -/
theorem c4_download_failure (mode scanTime : String) (fileLines : List String)
    (cache : List CacheEntry) (e : String)
    (hne : finalTargetsOf fileLines ≠ []) :
    (run_stable_hunter mode scanTime fileLines cache (Except.error e)).results
        = (finalTargetsOf fileLines).map (fun t => errorRow t e)
      ∧ (run_stable_hunter mode scanTime fileLines cache (Except.error e)).results.length
        = (finalTargetsOf fileLines).length
      ∧ (∀ r ∈ (run_stable_hunter mode scanTime fileLines cache (Except.error e)).results,
          r.sector = "ERROR" ∧ r.orderError = some e)
      ∧ (run_stable_hunter mode scanTime fileLines cache (Except.error e)).cacheWrite
        = none := by
  have hrun : run_stable_hunter mode scanTime fileLines cache (Except.error e)
      = ⟨(finalTargetsOf fileLines).map (fun t => errorRow t e), scanTime,
         analysisModeOf mode, listFileOf mode, none⟩ := by
    simp only [run_stable_hunter]
    rw [if_neg hne]
  rw [hrun]
  refine ⟨rfl, by simp, ?_, rfl⟩
  intro r hr
  obtain ⟨t, ht, rfl⟩ := List.mem_map.mp hr
  exact ⟨rfl, rfl⟩

/-- Witness for C4: a one-ticker list with a failing download. -/
theorem c4_download_failure_witness :
    (run_stable_hunter "DAILY" "now" ["2330.TW"] [] (Except.error "boom")).results
        = (finalTargetsOf ["2330.TW"]).map (fun t => errorRow t "boom")
      ∧ (run_stable_hunter "DAILY" "now" ["2330.TW"] [] (Except.error "boom")).results.length
        = (finalTargetsOf ["2330.TW"]).length
      ∧ (∀ r ∈ (run_stable_hunter "DAILY" "now" ["2330.TW"] [] (Except.error "boom")).results,
          r.sector = "ERROR" ∧ r.orderError = some "boom")
      ∧ (run_stable_hunter "DAILY" "now" ["2330.TW"] [] (Except.error "boom")).cacheWrite
        = none :=
  c4_download_failure "DAILY" "now" ["2330.TW"] [] "boom" (by with_unfolding_all decide)

/-- C6: a ticker-list file holding only comment lines (starting with
    the hash character) and blank lines yields the empty result set,
    with the scan time, analysis mode and list file still returned, and
    no error. -/
theorem c6_comment_only_lines (mode scanTime : String) (fileLines : List String)
    (cache : List CacheEntry) (dl : Except String (List (String × List RawBar)))
    (h : ∀ l ∈ fileLines, l.startsWith "#" = true ∨ l.trim = "") :
    run_stable_hunter mode scanTime fileLines cache dl
      = ⟨[], scanTime, analysisModeOf mode, listFileOf mode, none⟩ := by
  have hpt : parseTargets fileLines = [] := by
    unfold parseTargets
    rw [List.filterMap_eq_nil_iff]
    intro l hl
    rcases h l hl with hc | hb
    · rw [if_neg]
      intro hand
      exact hand.2 hc
    · rw [if_neg]
      intro hand
      exact hand.1 hb
  have hft : finalTargetsOf fileLines = [] := by
    unfold finalTargetsOf
    rw [hpt]
    simp
  simp only [run_stable_hunter, hft]
  rfl

/-- Witness for C6: one comment line, one empty line, one blank line. -/
theorem c6_comment_only_lines_witness :
    run_stable_hunter "WEEKLY" "now" ["# note", "", "   "] [] (Except.error "boom")
      = ⟨[], "now", analysisModeOf "WEEKLY", listFileOf "WEEKLY", none⟩ :=
  c6_comment_only_lines "WEEKLY" "now" ["# note", "", "   "] [] (Except.error "boom")
    (by with_unfolding_all decide)

/-! ### The cache CSV round trip (claim C7) -/

theorem digitChar_isDigit : ∀ d : ℕ, d < 10 → (digitChar d).isDigit = true := by decide

theorem charDigit_digitChar : ∀ d : ℕ, d < 10 → charDigit (digitChar d) = d := by decide

theorem natRepr_data (n : ℕ) :
    (natRepr n).data ≠ [] ∧ (natRepr n).data.all Char.isDigit = true := by
  by_cases h0 : n = 0
  · subst h0
    exact ⟨by decide, by decide⟩
  · unfold natRepr
    rw [if_neg h0]
    have hdata : (String.mk (((Nat.digits 10 n).map digitChar).reverse)).data
        = ((Nat.digits 10 n).map digitChar).reverse := rfl
    rw [hdata]
    constructor
    · simp [List.reverse_eq_nil_iff, List.map_eq_nil_iff, Nat.digits_ne_nil_iff_ne_zero, h0]
    · rw [List.all_eq_true]
      intro c hc
      rw [List.mem_reverse] at hc
      obtain ⟨d, hd, rfl⟩ := List.mem_map.mp hc
      exact digitChar_isDigit d (Nat.digits_lt_base (by norm_num) hd)

theorem digitsVal_natRepr (n : ℕ) : digitsVal ((natRepr n).data) = n := by
  by_cases h0 : n = 0
  · subst h0
    decide
  · unfold natRepr
    rw [if_neg h0]
    show digitsVal (((Nat.digits 10 n).map digitChar).reverse) = n
    unfold digitsVal
    rw [List.map_reverse, List.reverse_reverse, List.map_map]
    have hmapeq : (Nat.digits 10 n).map (charDigit ∘ digitChar) = (Nat.digits 10 n).map id :=
      List.map_congr_left (fun d hd => charDigit_digitChar d (Nat.digits_lt_base (by norm_num) hd))
    rw [hmapeq, List.map_id]
    exact Nat.ofDigits_digits 10 n

theorem pdNa_not_digits :
    ∀ s ∈ pdNaValues, ¬(s.data ≠ [] ∧ s.data.all Char.isDigit = true) := by decide

theorem natRepr_not_na (n : ℕ) : natRepr n ∉ pdNaValues := fun hmem =>
  pdNa_not_digits (natRepr n) hmem (natRepr_data n)

theorem pdBoolOf_natRepr (n : ℕ) : pdBoolOf (natRepr n) = none := by
  have hne : ∀ t : String, ¬(t.data ≠ [] ∧ t.data.all Char.isDigit = true) →
      natRepr n ≠ t := fun t ht heq => ht (heq ▸ natRepr_data n)
  have h1 : ¬(natRepr n = "True" ∨ natRepr n = "TRUE") := by
    rintro (h | h)
    · exact hne "True" (by decide) h
    · exact hne "TRUE" (by decide) h
  have h2 : ¬(natRepr n = "False" ∨ natRepr n = "FALSE") := by
    rintro (h | h)
    · exact hne "False" (by decide) h
    · exact hne "FALSE" (by decide) h
  unfold pdBoolOf
  rw [if_neg h1, if_neg h2]

theorem all_takeWhile_dropWhile {α : Type} (p : α → Bool) :
    ∀ l : List α, l.all p = true → l.takeWhile p = l ∧ l.dropWhile p = [] := by
  intro l hl
  induction l with
  | nil => exact ⟨rfl, rfl⟩
  | cons x xs ih =>
    rw [List.all_cons, Bool.and_eq_true] at hl
    obtain ⟨hx, hxs⟩ := hl
    obtain ⟨h1, h2⟩ := ih hxs
    exact ⟨by rw [List.takeWhile_cons_of_pos hx, h1],
      by rw [List.dropWhile_cons_of_pos hx, h2]⟩

theorem pdNumericOf_natRepr (n : ℕ) : pdNumericOf (natRepr n) = some (n : ℚ) := by
  obtain ⟨hne, hall⟩ := natRepr_data n
  obtain ⟨c, cs, hcs⟩ := List.exists_cons_of_ne_nil hne
  have hcdig : c.isDigit = true :=
    List.all_eq_true.mp hall c (by rw [hcs]; exact List.mem_cons_self c cs)
  have hcneg : ¬((natRepr n).data.head? = some '-') := by
    rw [hcs, List.head?_cons]
    intro h
    rw [Option.some.injEq] at h
    subst h
    exact absurd hcdig (by decide)
  have hcplus : ¬((natRepr n).data.head? = some '-' ∨ (natRepr n).data.head? = some '+') := by
    rintro (h | h)
    · exact hcneg h
    · rw [hcs, List.head?_cons, Option.some.injEq] at h
      subst h
      exact absurd hcdig (by decide)
  obtain ⟨htake, hdrop⟩ := all_takeWhile_dropWhile Char.isDigit (natRepr n).data hall
  simp only [pdNumericOf]
  rw [if_neg hne, if_neg hcneg, if_neg hcplus, htake, hdrop]
  norm_num [hne, pdExp?, digitsVal_natRepr n]

theorem readColumn_object (cells : List String)
    (h : ∃ s ∈ cells, decide (s ∈ pdNaValues) = false
      ∧ pdNumericOf s = none ∧ pdBoolOf s = none) :
    readColumn cells = cells.map readCell := by
  obtain ⟨s, hs, hna, hnum, hbool⟩ := h
  have hmem : s ∈ cells.filter fun x => ! decide (x ∈ pdNaValues) := by
    rw [List.mem_filter]
    exact ⟨hs, by rw [hna]; rfl⟩
  have h1 : ¬((cells.filter fun x => ! decide (x ∈ pdNaValues)).all
      (fun x => (pdNumericOf x).isSome) = true) := by
    intro hall
    have hx := List.all_eq_true.mp hall s hmem
    rw [hnum] at hx
    exact absurd hx (by decide)
  have h2 : ¬((cells.filter fun x => ! decide (x ∈ pdNaValues)).all
      (fun x => (pdBoolOf x).isSome) = true) := by
    intro hall
    have hx := List.all_eq_true.mp hall s hmem
    rw [hbool] at hx
    exact absurd hx (by decide)
  simp only [readColumn]
  rw [if_neg h1, if_neg h2]

theorem readColumn_numeric (cells : List String)
    (h : ∀ s ∈ cells, decide (s ∈ pdNaValues) = false ∧ (pdNumericOf s).isSome = true) :
    readColumn cells
      = cells.map fun s =>
          if s ∈ pdNaValues then PdCell.na
          else (pdNumericOf s).elim (PdCell.str s) PdCell.num := by
  have hfil : (cells.filter fun s => ! decide (s ∈ pdNaValues)) = cells := by
    rw [List.filter_eq_self]
    intro a ha
    rw [(h a ha).1]
    rfl
  have hall : ((cells.filter fun s => ! decide (s ∈ pdNaValues)).all
      fun s => (pdNumericOf s).isSome) = true := by
    rw [hfil, List.all_eq_true]
    exact fun a ha => (h a ha).2
  simp only [readColumn]
  rw [if_pos hall]

theorem zipCells_map3 (f g k : CacheEntry → PdCell) (m : List CacheEntry) :
    zipCells (m.map f) (m.map g) (m.map k) = m.map fun e => ⟨f e, g e, k e⟩ := by
  induction m with
  | nil => rfl
  | cons e m ih => simp [zipCells, ih]

/-- C7 counterexample: writing the single cache row (ticker "2330.TW",
    window 20, fitness "N/A") — the program's own default fitness string
    — and reading the file back yields NaN for the fitness, not the
    string "N/A": the cache does not round-trip every mapping. -/
theorem c7_cache_roundtrip_counterexample :
    csvToCache (cacheToCsv [⟨"2330.TW", 20, "N/A"⟩])
        = some [⟨PdCell.str "2330.TW", PdCell.num 20, PdCell.na⟩]
      ∧ csvToCache (cacheToCsv [⟨"2330.TW", 20, "N/A"⟩])
        ≠ some ([(⟨"2330.TW", 20, "N/A"⟩ : CacheEntry)].map asRead) := by
  refine ⟨by with_unfolding_all decide, by with_unfolding_all decide⟩

/-- C7 (amended): the gene cache round-trips for every mapping whose
    ticker and fitness strings are plain — none of pandas' NA markers
    and not numeric- or boolean-coercible — which covers every value the
    program itself writes: reading the written file back yields the same
    ticker string, the window as its number (recovered by `int(...)` on
    line 183), and the same fitness string, row for row. -/
theorem c7_cache_roundtrip_amended (m : List CacheEntry)
    (hplain : ∀ e ∈ m, plainStr e.ticker = true ∧ plainStr e.fit = true) :
    csvToCache (cacheToCsv m) = some (m.map asRead) := by
  have hP : ∀ e ∈ m,
      (decide (e.ticker ∈ pdNaValues) = false ∧ pdNumericOf e.ticker = none
        ∧ pdBoolOf e.ticker = none)
      ∧ (decide (e.fit ∈ pdNaValues) = false ∧ pdNumericOf e.fit = none
        ∧ pdBoolOf e.fit = none) := by
    intro e he
    obtain ⟨h1, h2⟩ := hplain e he
    unfold plainStr at h1 h2
    simp only [Bool.and_eq_true, Bool.not_eq_true', Option.isNone_iff_eq_none] at h1 h2
    exact ⟨⟨h1.1.1, h1.1.2, h1.2⟩, ⟨h2.1.1, h2.1.2, h2.2⟩⟩
  have hlen : ((m.map fun e => [e.ticker, natRepr e.bestP, e.fit]).all
      fun r => decide (r.length = 3)) = true := by
    rw [List.all_eq_true]
    intro r hr
    obtain ⟨e, he, rfl⟩ := List.mem_map.mp hr
    rfl
  simp only [cacheToCsv, csvToCache]
  rw [if_pos ⟨by trivial, hlen⟩]
  have hcol0 : colOf 0 (m.map fun e => [e.ticker, natRepr e.bestP, e.fit])
      = m.map fun e => e.ticker := by
    unfold colOf
    rw [List.map_map]
    rfl
  have hcol1 : colOf 1 (m.map fun e => [e.ticker, natRepr e.bestP, e.fit])
      = m.map fun e => natRepr e.bestP := by
    unfold colOf
    rw [List.map_map]
    rfl
  have hcol2 : colOf 2 (m.map fun e => [e.ticker, natRepr e.bestP, e.fit])
      = m.map fun e => e.fit := by
    unfold colOf
    rw [List.map_map]
    rfl
  rw [hcol0, hcol1, hcol2]
  have hnum : readColumn (m.map fun e => natRepr e.bestP)
      = (m.map fun e => natRepr e.bestP).map fun s =>
          if s ∈ pdNaValues then PdCell.na
          else (pdNumericOf s).elim (PdCell.str s) PdCell.num := by
    apply readColumn_numeric
    intro s hs
    obtain ⟨e, he, rfl⟩ := List.mem_map.mp hs
    exact ⟨decide_eq_false (natRepr_not_na e.bestP),
      by rw [pdNumericOf_natRepr]; rfl⟩
  have hmap1 : ((m.map fun e => natRepr e.bestP).map fun s =>
        if s ∈ pdNaValues then PdCell.na
        else (pdNumericOf s).elim (PdCell.str s) PdCell.num)
      = m.map fun e => PdCell.num (e.bestP : ℚ) := by
    rw [List.map_map]
    apply List.map_congr_left
    intro e he
    show (if natRepr e.bestP ∈ pdNaValues then PdCell.na
      else (pdNumericOf (natRepr e.bestP)).elim (PdCell.str (natRepr e.bestP))
        PdCell.num) = _
    rw [if_neg (natRepr_not_na e.bestP), pdNumericOf_natRepr]
    rfl
  cases m with
  | nil => rfl
  | cons e0 m2 =>
    have he0 := hP e0 (List.mem_cons_self e0 m2)
    have hobj0 : readColumn ((e0 :: m2).map fun e => e.ticker)
        = ((e0 :: m2).map fun e => e.ticker).map readCell :=
      readColumn_object _
        ⟨e0.ticker, List.mem_map_of_mem _ (List.mem_cons_self e0 m2),
          he0.1.1, he0.1.2.1, he0.1.2.2⟩
    have hobj2 : readColumn ((e0 :: m2).map fun e => e.fit)
        = ((e0 :: m2).map fun e => e.fit).map readCell :=
      readColumn_object _
        ⟨e0.fit, List.mem_map_of_mem _ (List.mem_cons_self e0 m2),
          he0.2.1, he0.2.2.1, he0.2.2.2⟩
    have hmap0 : ((e0 :: m2).map fun e => e.ticker).map readCell
        = (e0 :: m2).map fun e => PdCell.str e.ticker := by
      rw [List.map_map]
      apply List.map_congr_left
      intro e he
      show readCell e.ticker = _
      unfold readCell
      rw [if_neg (of_decide_eq_false (hP e he).1.1)]
    have hmap2 : ((e0 :: m2).map fun e => e.fit).map readCell
        = (e0 :: m2).map fun e => PdCell.str e.fit := by
      rw [List.map_map]
      apply List.map_congr_left
      intro e he
      show readCell e.fit = _
      unfold readCell
      rw [if_neg (of_decide_eq_false (hP e he).2.1)]
    rw [hobj0, hobj2, hmap0, hmap2, hnum, hmap1, zipCells_map3]
    rfl

/-- Witness for C7: a one-row cache with a plain ticker and the usual
    percent-string fitness. -/
theorem c7_cache_roundtrip_witness :
    csvToCache (cacheToCsv [⟨"2330.TW", 20, "12.5%"⟩])
      = some ([(⟨"2330.TW", 20, "12.5%"⟩ : CacheEntry)].map asRead) :=
  c7_cache_roundtrip_amended [⟨"2330.TW", 20, "12.5%"⟩] (by with_unfolding_all decide)

/-! ### Per-ticker failure isolation (claim C5) -/

theorem iterTicker_congr (mode : String) (cache : List CacheEntry) (n : ℕ)
    (d d2 : List (String × List RawBar)) (s : String)
    (h : getRaw n d s = getRaw n d2 s) :
    iterTicker mode cache n d s = iterTicker mode cache n d2 s := by
  unfold iterTicker
  rw [h]

theorem c5_loop_isolation (mode : String) (cache : List CacheEntry) (n : ℕ)
    (d d2 : List (String × List RawBar)) (t msg : String)
    (ht : iterTicker mode cache n d t = (some (errorRow t msg), none))
    (hagree : ∀ s, s ≠ t → getRaw n d s = getRaw n d2 s) :
    ∀ ts : List String,
    (ts.map (iterTicker mode cache n d)).filterMap Prod.fst
      = ts.filterMap (fun s =>
          if s = t then some (errorRow t msg) else (iterTicker mode cache n d2 s).1) := by
  intro ts
  induction ts with
  | nil => rfl
  | cons s ts ih =>
    by_cases hs : s = t
    · subst hs
      simp [List.filterMap_cons, ht, ih]
    · have hiter : iterTicker mode cache n d s = iterTicker mode cache n d2 s :=
        iterTicker_congr mode cache n d d2 s (hagree s hs)
      simp [List.filterMap_cons, hiter, hs, ih]

/-- C5: per-ticker failure isolation.  If analyzing ticker `t` raises
    (producing an error row with the caught message), then the result
    list contains exactly that one error row at each position of `t`,
    and every other ticker contributes exactly the row it would produce
    under any download state that agrees outside `t`: one ticker's
    failure neither aborts the batch nor changes the other rows. -/
theorem c5_per_ticker_isolation (mode : String) (cache : List CacheEntry)
    (targets : List String) (d d2 : List (String × List RawBar)) (t msg : String)
    (ht : iterTicker mode cache targets.length d t = (some (errorRow t msg), none))
    (hagree : ∀ s, s ≠ t → getRaw targets.length d s = getRaw targets.length d2 s) :
    (targets.map (iterTicker mode cache targets.length d)).filterMap Prod.fst
      = targets.filterMap (fun s =>
          if s = t then some (errorRow t msg)
          else (iterTicker mode cache targets.length d2 s).1) :=
  c5_loop_isolation mode cache targets.length d d2 t msg ht hagree targets

/-- Witness for C5: a two-ticker batch where the first frame is empty
    (raising for that ticker), compared with a download that repairs it. -/
theorem c5_per_ticker_isolation_witness :
    ((["2330.TW", "0050.TW"].map (iterTicker "DAILY" [] (["2330.TW", "0050.TW"] : List String).length
        [("2330.TW", []), ("0050.TW", [⟨some 1, some 2, some 1, some 2, some 3⟩])])).filterMap
      Prod.fst)
      = (["2330.TW", "0050.TW"] : List String).filterMap (fun s =>
          if s = "2330.TW" then
            some (errorRow "2330.TW" "DataFrame for this ticker is empty or all NaN.")
          else (iterTicker "DAILY" [] (["2330.TW", "0050.TW"] : List String).length
            [("2330.TW", [⟨some 1, some 2, some 1, some 2, some 3⟩]),
             ("0050.TW", [⟨some 1, some 2, some 1, some 2, some 3⟩])] s).1) := by
  apply c5_per_ticker_isolation "DAILY" [] ["2330.TW", "0050.TW"]
    [("2330.TW", []), ("0050.TW", [⟨some 1, some 2, some 1, some 2, some 3⟩])]
    [("2330.TW", [⟨some 1, some 2, some 1, some 2, some 3⟩]),
     ("0050.TW", [⟨some 1, some 2, some 1, some 2, some 3⟩])]
    "2330.TW" "DataFrame for this ticker is empty or all NaN."
  · decide
  · intro s hs
    have hbeq : (s == "2330.TW") = false := by
      rw [beq_eq_false_iff_ne]
      exact hs
    simp [getRaw, List.lookup, hbeq]

/-! ### DAILY analysis reuses the gene cache (claim C8) -/

theorem analyzeTicker_daily (mode : String) (hmode : analysisModeOf mode = "DAILY")
    (cache : List CacheEntry) (raw : List RawBar) (t : String) (row : Row)
    (ce : Option CacheEntry)
    (h : analyzeTicker mode cache raw t = Except.ok (some (row, ce))) :
    ce = none ∧ row = stdRow t (dropna raw) (cacheBestP cache t) (cacheFit cache t) := by
  have hW : ¬ (analysisModeOf mode = "WEEKLY") := by
    rw [hmode]
    intro hc
    exact absurd hc (by decide)
  simp only [analyzeTicker] at h
  by_cases h1 : raw = [] ∨ allNull raw = true
  · rw [if_pos h1] at h
    exact absurd h (by simp)
  · rw [if_neg h1] at h
    by_cases h2 : dropna raw = []
    · rw [if_pos h2] at h
      exact absurd h (by simp)
    · rw [if_neg h2] at h
      by_cases h3 : mode = "QUICK_SCAN" ∧ ¬ quickPass (dropna raw) = true
      · rw [if_pos h3] at h
        exact absurd h (by simp)
      · rw [if_neg h3, if_neg hW] at h
        simp only [Except.ok.injEq, Option.some.injEq, Prod.mk.injEq] at h
        exact ⟨h.2.symm, h.1.symm⟩

/-- C8: on a non-backtest run (DAILY analysis mode), every result row
    produced for a ticker takes its window from the gene cache entry for
    that ticker (defaulting to 20) and its fitness from the cache
    (defaulting to "N/A"), no backtest is recorded, and the cache file
    is not rewritten by the run. -/
theorem c8_daily_reuses_cache (mode scanTime : String) (fileLines : List String)
    (cache : List CacheEntry) (dl : Except String (List (String × List RawBar)))
    (hmode : analysisModeOf mode = "DAILY") :
    (∀ (raw : List RawBar) (t : String) (row : Row) (ce : Option CacheEntry),
        analyzeTicker mode cache raw t = Except.ok (some (row, ce)) →
          ce = none
          ∧ row.pField = natRepr (cacheBestP cache t) ++ "d"
          ∧ row.fit = cacheFit cache t)
      ∧ (run_stable_hunter mode scanTime fileLines cache dl).cacheWrite = none := by
  constructor
  · intro raw t row ce h
    obtain ⟨hce, hrow⟩ := analyzeTicker_daily mode hmode cache raw t row ce h
    subst hrow
    exact ⟨hce, rfl, rfl⟩
  · have hiter : ∀ n d t2, (iterTicker mode cache n d t2).2 = none := by
      intro n d t2
      cases hg : getRaw n d t2 with
      | error e => simp [iterTicker, hg]
      | ok raw =>
        cases ha : analyzeTicker mode cache raw t2 with
        | error e => simp [iterTicker, hg, ha]
        | ok o =>
          cases o with
          | none => simp [iterTicker, hg, ha]
          | some rc =>
            obtain ⟨row, ce⟩ := rc
            simp only [iterTicker, hg, ha]
            exact (analyzeTicker_daily mode hmode cache raw t2 row ce ha).1
    simp only [run_stable_hunter]
    by_cases htg : finalTargetsOf fileLines = []
    · simp [htg]
    · cases dl with
      | error e => simp [htg]
      | ok d =>
        by_cases hde : dlEmpty d = true
        · simp [htg, hde]
        · have hnc : (((finalTargetsOf fileLines).map
              (iterTicker mode cache (finalTargetsOf fileLines).length d)).filterMap
                Prod.snd) = [] := by
            rw [List.filterMap_eq_nil_iff]
            intro x hx
            obtain ⟨t2, ht2, rfl⟩ := List.mem_map.mp hx
            exact hiter _ _ t2
          simp [htg, hde, hnc]

/-- Witness for C8: a DAILY run over a one-ticker list with a cached
    window of 60. -/
theorem c8_daily_reuses_cache_witness :
    (∀ (raw : List RawBar) (t : String) (row : Row) (ce : Option CacheEntry),
        analyzeTicker "DAILY" [⟨"2330.TW", 60, "12.5%"⟩] raw t = Except.ok (some (row, ce)) →
          ce = none
          ∧ row.pField = natRepr (cacheBestP [⟨"2330.TW", 60, "12.5%"⟩] t) ++ "d"
          ∧ row.fit = cacheFit [⟨"2330.TW", 60, "12.5%"⟩] t)
      ∧ (run_stable_hunter "DAILY" "now" ["2330.TW"] [⟨"2330.TW", 60, "12.5%"⟩]
          (Except.ok [("2330.TW", [⟨some 1, some 2, some 1, some 2, some 3⟩])])).cacheWrite
        = none :=
  c8_daily_reuses_cache "DAILY" "now" ["2330.TW"] [⟨"2330.TW", 60, "12.5%"⟩]
    (Except.ok [("2330.TW", [⟨some 1, some 2, some 1, some 2, some 3⟩])]) (by decide)

/-! ### The ^TWII removal (claim C9) -/

/-- C9 counterexample: `targets.remove("^TWII")` deletes only the first
    occurrence, so with the parsed list ["^TWII", "^TWII"] the symbol is
    still analyzed and produces a result row, contradicting the claim
    that it is removed and produces no row. -/
theorem c9_twii_removal_counterexample :
    "^TWII" ∈ finalTargetsOf ["^TWII", "^TWII"]
      ∧ (run_stable_hunter "DAILY" "now" ["^TWII", "^TWII"] []
          (Except.error "boom")).results = [errorRow "^TWII" "boom"] := by
  have hft : finalTargetsOf ["^TWII", "^TWII"] = ["^TWII"] := by
    with_unfolding_all decide
  constructor
  · rw [hft]
    exact List.mem_singleton.mpr rfl
  · simp only [run_stable_hunter, hft]
    rfl

/-- C9 (amended): the removal deletes one occurrence of ^TWII.  When
    the parsed list has more than one entry and contains ^TWII exactly
    once, ^TWII is absent from the analyzed targets, so it is neither
    downloaded nor analyzed and produces no result row; when ^TWII is
    the only parsed target it is kept and analyzed. -/
theorem c9_twii_removal_amended (fileLines : List String) :
    ((parseTargets fileLines).count "^TWII" = 1 → 1 < (parseTargets fileLines).length →
        "^TWII" ∉ finalTargetsOf fileLines)
      ∧ (parseTargets fileLines = ["^TWII"] → finalTargetsOf fileLines = ["^TWII"]) := by
  constructor
  · intro hc hl
    unfold finalTargetsOf
    have hmem : "^TWII" ∈ parseTargets fileLines := by
      rw [← List.count_pos_iff, hc]
      norm_num
    rw [if_pos ⟨hl, hmem⟩]
    intro hmem2
    have hce := List.count_erase_self "^TWII" (parseTargets fileLines)
    rw [hc] at hce
    have hc0 : ((parseTargets fileLines).erase "^TWII").count "^TWII" = 0 := hce
    rw [List.count_eq_zero] at hc0
    exact hc0 hmem2
  · intro hp
    unfold finalTargetsOf
    rw [hp]
    simp

/-- Witness for C9: ^TWII among two targets is dropped; alone it is
    kept. -/
theorem c9_twii_removal_witness :
    "^TWII" ∉ finalTargetsOf ["^TWII", "2330.TW"]
      ∧ finalTargetsOf ["^TWII"] = ["^TWII"] :=
  ⟨(c9_twii_removal_amended ["^TWII", "2330.TW"]).1 (by with_unfolding_all decide)
      (by with_unfolding_all decide),
   (c9_twii_removal_amended ["^TWII"]).2 (by with_unfolding_all decide)⟩

/-! ### The QUICK_SCAN gate (claim C10) -/

/-- C10 counterexample: a frame whose two rows each contain some (but
    not all) NaN cells cleans to zero rows — fewer than the two the
    claim requires — yet the outcome is a raised error (an error row),
    not the silent skip the claim predicts. -/
theorem c10_quick_scan_counterexample :
    (dropna [⟨some 1, some 1, some 1, none, some 1⟩,
             ⟨none, some 1, some 1, some 1, some 1⟩]).length < 2
      ∧ analyzeTicker "QUICK_SCAN" []
          [⟨some 1, some 1, some 1, none, some 1⟩,
           ⟨none, some 1, some 1, some 1, some 1⟩] "2330.TW"
        = Except.error "DataFrame is empty after dropping NaNs."
      ∧ iterTicker "QUICK_SCAN" [] 2
          [("2330.TW", [⟨some 1, some 1, some 1, none, some 1⟩,
                        ⟨none, some 1, some 1, some 1, some 1⟩]),
           ("0050.TW", [⟨some 1, some 1, some 1, some 1, some 1⟩])] "2330.TW"
        = (some (errorRow "2330.TW" "DataFrame is empty after dropping NaNs."), none) := by
  refine ⟨by decide, by decide, by decide⟩

/-- C10 (amended): in QUICK_SCAN mode, for a frame whose cleaned data is
    nonempty, a result row is produced exactly when the cleaned data has
    at least 2 rows, the last close exceeds the last open, and the last
    volume exceeds 1.2 times the previous volume; when any of these
    fails the ticker is silently skipped (no row of any kind).  Frames
    that are empty, all-NaN, or empty after dropping NaN rows instead
    produce an error row. -/
theorem c10_quick_scan_amended (cache : List CacheEntry) (raw : List RawBar) (t : String)
    (hne : dropna raw ≠ []) :
    analyzeTicker "QUICK_SCAN" cache raw t
      = (if quickPass (dropna raw) then
           Except.ok (some (stdRow t (dropna raw) (cacheBestP cache t) (cacheFit cache t),
             none))
         else Except.ok none) := by
  have h1 : ¬ (raw = [] ∨ allNull raw = true) := by
    intro hor
    apply hne
    rcases hor with hr | ha
    · rw [hr]
      rfl
    · unfold dropna
      rw [List.filterMap_eq_nil_iff]
      intro r hr
      have hall := List.all_eq_true.mp ha r hr
      unfold rowAllNull at hall
      simp only [Bool.and_eq_true, Option.isNone_iff_eq_none] at hall
      obtain ⟨⟨⟨⟨ha1, ha2⟩, ha3⟩, ha4⟩, ha5⟩ := hall
      unfold rowComplete
      rw [ha1]
  have hW : ¬ (analysisModeOf "QUICK_SCAN" = "WEEKLY") := by decide
  simp only [analyzeTicker]
  rw [if_neg h1, if_neg hne]
  by_cases hq : quickPass (dropna raw) = true
  · rw [if_neg (fun hand => hand.2 hq), if_neg hW, if_pos hq]
  · rw [if_pos ⟨by trivial, hq⟩, if_neg hq]

/-- Witness for C10: a two-row clean frame failing the volume test is
    silently skipped. -/
theorem c10_quick_scan_witness :
    analyzeTicker "QUICK_SCAN" []
        [⟨some 1, some 2, some 1, some 2, some 3⟩,
         ⟨some 1, some 2, some 1, some 2, some 3⟩] "2330.TW"
      = (if quickPass (dropna [⟨some 1, some 2, some 1, some 2, some 3⟩,
            ⟨some 1, some 2, some 1, some 2, some 3⟩]) then
           Except.ok (some (stdRow "2330.TW"
             (dropna [⟨some 1, some 2, some 1, some 2, some 3⟩,
               ⟨some 1, some 2, some 1, some 2, some 3⟩])
             (cacheBestP [] "2330.TW") (cacheFit [] "2330.TW"), none))
         else Except.ok none) :=
  c10_quick_scan_amended [] [⟨some 1, some 2, some 1, some 2, some 3⟩,
    ⟨some 1, some 2, some 1, some 2, some 3⟩] "2330.TW" (by decide)
